import Mathlib

/-!
Verification of the teslacam-replay core subsystems against their
natural-language specification.

The development shallowly embeds two source modules:

* `src/server/sei.ts` — the MP4 box reader, H.264 SEI scanner/decoder and
  frame-time mapper (`findBox`, `parseFrameDurations`, `parseStts`,
  `stripEmulationBytes`, `decodeSei`, `extractSeiMessages`,
  `extractTelemetry`);
* `src/server/google-drive.ts` — the HLS segmentation engine
  (`isCompleteManifest`, the failure-salvage epilogue of `runSegmentation`,
  and the caller/job interleaving of `ensureHlsSegments`).

Modelling conventions:

* A byte buffer is a `List Nat` (one entry per byte).  `DataView.getUint32`
  throws a `RangeError` when the read would pass the end of the buffer, so
  buffer reads and every function that can perform one live in
  `Except Unit`: `Except.error ()` is a thrown `RangeError`.  Plain indexed
  reads (`buffer[i]`) yield `undefined` out of range, which every consumer
  coerces to `0`, so they are modelled as total reads defaulting to `0`.
* JavaScript `number` arithmetic on times and durations is modelled over
  `ℚ`; loop counters and offsets are `Nat`/`Int`.
* Loops are written with an explicit fuel argument that provably exceeds
  the iteration count, so that all definitions reduce by evaluation.
-/

deriving instance DecidableEq for Except

/-- One byte of the buffer; out-of-range access is `undefined` which every
consumer of `buffer[i]` coerces to `0`. -/
def byteAt (buf : List Nat) (i : Nat) : Nat :=
  buf.getD i 0

/-- `DataView.getUint32(pos)` big-endian; throws (`Except.error`) when the
four bytes are not entirely inside the buffer. -/
def getU32 (buf : List Nat) (pos : Nat) : Except Unit Nat :=
  if pos + 4 ≤ buf.length then
    .ok (byteAt buf pos * 16777216 + byteAt buf (pos + 1) * 65536 +
         byteAt buf (pos + 2) * 256 + byteAt buf (pos + 3))
  else .error ()

/-- `readAscii(pos, 4)` of the source, kept as raw bytes: the four bytes at
`pos`, out-of-range positions reading as `0`. -/
def read4 (buf : List Nat) (pos : Nat) : List Nat :=
  [byteAt buf pos, byteAt buf (pos + 1), byteAt buf (pos + 2), byteAt buf (pos + 3)]

/-- ASCII bytes of the four-character code `"moov"`. -/
def moovCC : List Nat := [109, 111, 111, 118]

/-- ASCII bytes of `"trak"`. -/
def trakCC : List Nat := [116, 114, 97, 107]

/-- ASCII bytes of `"mdia"`. -/
def mdiaCC : List Nat := [109, 100, 105, 97]

/-- ASCII bytes of `"hdlr"`. -/
def hdlrCC : List Nat := [104, 100, 108, 114]

/-- ASCII bytes of `"vide"`. -/
def videCC : List Nat := [118, 105, 100, 101]

/-- ASCII bytes of `"mdhd"`. -/
def mdhdCC : List Nat := [109, 100, 104, 100]

/-- ASCII bytes of `"minf"`. -/
def minfCC : List Nat := [109, 105, 110, 102]

/-- ASCII bytes of `"stbl"`. -/
def stblCC : List Nat := [115, 116, 98, 108]

/-- ASCII bytes of `"stts"`. -/
def sttsCC : List Nat := [115, 116, 116, 115]

/-- ASCII bytes of `"mdat"`. -/
def mdatCC : List Nat := [109, 100, 97, 116]

/-- The record `findBox` returns: `{ start: pos+headerSize, end: pos+size,
size: size-headerSize }`.  `end`/`start` are reserved words in Lean, hence
`bstart`/`bend`; `bsize` is an `Int` because in the 64-bit extended form
`size - headerSize` can be negative. -/
structure FoundBox where
  bstart : Nat
  bend : Nat
  bsize : Int
deriving DecidableEq, Repr

/-- Reading the `(size, headerSize)` pair of a box header at `pos`:
`size === 1` selects the 64-bit extended size (two further u32 reads, which
can throw), `size === 0` means "extends to `end`". -/
def readSizeHeader (buf : List Nat) (fin pos size0 : Nat) : Except Unit (Nat × Nat) :=
  if size0 = 1 then
    match getU32 buf (pos + 8), getU32 buf (pos + 12) with
    | .ok hi, .ok lo => .ok (hi * 4294967296 + lo, 16)
    | _, _ => .error ()
  else if size0 = 0 then .ok (fin - pos, 8)
  else .ok (size0, 8)

/-- The scan loop of `findBox`, with fuel.  Each accepted box advances
`pos` by at least 8, so fuel `fin + 1` (used by `findBox`) can never be
exhausted before the `pos + 8 ≤ fin` guard fails. -/
def findBoxLoop (buf : List Nat) (fin : Nat) (name : List Nat) :
    Nat → Nat → Except Unit (Option FoundBox)
  | 0, _ => .ok none
  | fuel + 1, pos =>
    if pos + 8 ≤ fin then
      match getU32 buf pos with
      | .error _ => .error ()
      | .ok size0 =>
        match readSizeHeader buf fin pos size0 with
        | .error _ => .error ()
        | .ok (size, header) =>
          if size < 8 ∨ fin < pos + size then .ok none
          else if read4 buf (pos + 4) = name then
            .ok (some ⟨pos + header, pos + size, (size : Int) - (header : Int)⟩)
          else findBoxLoop buf fin name fuel (pos + size)
    else .ok none

/-- `findBox(start, end, name)` of the source. -/
def findBox (buf : List Nat) (start fin : Nat) (name : List Nat) :
    Except Unit (Option FoundBox) :=
  findBoxLoop buf fin name (fin + 1) start

/-- `findMdat()`: the top-level `mdat` box as `(offset, size)` =
`(box.start, box.size)`. -/
def findMdat (buf : List Nat) : Except Unit (Option (Nat × Int)) :=
  match findBox buf 0 buf.length mdatCC with
  | .error _ => .error ()
  | .ok none => .ok none
  | .ok (some box) => .ok (some (box.bstart, box.bsize))

/-- The run-length entry reader of `parseStts`: reads up to `fuel`
(= `entryCount`) pairs `(sampleCount, sampleDelta)`, stopping early
(the `break`) when the next pair would pass `stts.end`. -/
def sttsEntriesLoop (buf : List Nat) (sttsEnd : Nat) :
    Nat → Nat → Except Unit (List (Nat × Nat))
  | 0, _ => .ok []
  | fuel + 1, pos =>
    if sttsEnd < pos + 8 then .ok []
    else
      match getU32 buf pos, getU32 buf (pos + 4) with
      | .ok c, .ok d =>
        match sttsEntriesLoop buf sttsEnd fuel (pos + 8) with
        | .error _ => .error ()
        | .ok rest => .ok ((c, d) :: rest)
      | _, _ => .error ()

/-- Expansion of the run-length entries into per-sample durations in
milliseconds: each `(count, delta)` run contributes `count` copies of
`delta / timescale * 1000`.  The source pushes the copies inside the entry
loop; reading the entries first (`sttsEntriesLoop`) and expanding after is
the same computation. -/
def sttsExpand (entries : List (Nat × Nat)) (ts : Nat) : List ℚ :=
  entries.flatMap (fun p => List.replicate p.1 (((p.2 : ℚ) / (ts : ℚ)) * 1000))

/-- `parseStts(mdia)`: timescale from `mdhd` (version byte selects the
offset of the 32-bit timescale), then `minf → stbl → stts`, then the
run-length expansion; `null` when a box is missing, the timescale is zero,
or no durations result. -/
def parseStts (buf : List Nat) (mdia : FoundBox) : Except Unit (Option (List ℚ)) :=
  match findBox buf mdia.bstart mdia.bend mdhdCC with
  | .error _ => .error ()
  | .ok none => .ok none
  | .ok (some mdhd) =>
    match (if byteAt buf mdhd.bstart = 1 then getU32 buf (mdhd.bstart + 20)
           else getU32 buf (mdhd.bstart + 12)) with
    | .error _ => .error ()
    | .ok ts =>
      if ts = 0 then .ok none
      else
        match findBox buf mdia.bstart mdia.bend minfCC with
        | .error _ => .error ()
        | .ok none => .ok none
        | .ok (some minf) =>
          match findBox buf minf.bstart minf.bend stblCC with
          | .error _ => .error ()
          | .ok none => .ok none
          | .ok (some stbl) =>
            match findBox buf stbl.bstart stbl.bend sttsCC with
            | .error _ => .error ()
            | .ok none => .ok none
            | .ok (some stts) =>
              match getU32 buf (stts.bstart + 4) with
              | .error _ => .error ()
              | .ok entryCount =>
                match sttsEntriesLoop buf stts.bend entryCount (stts.bstart + 8) with
                | .error _ => .error ()
                | .ok entries =>
                  let ds := sttsExpand entries ts
                  if ds.length = 0 then .ok none else .ok (some ds)

/-- The `while (trakStart < moov.end)` loop of `parseFrameDurations`:
for each `trak`, look for `mdia` and a `vide` handler; the first video
track is handed to `parseStts`, otherwise skip past the track.  Each
iteration advances `trakStart` to `trak.bend ≥ trakStart + 8`, so fuel
`moovEnd + 1` is never exhausted first. -/
def trakLoop (buf : List Nat) (moovEnd : Nat) :
    Nat → Nat → Except Unit (Option (List ℚ))
  | 0, _ => .ok none
  | fuel + 1, trakStart =>
    if trakStart < moovEnd then
      match findBox buf trakStart moovEnd trakCC with
      | .error _ => .error ()
      | .ok none => .ok none
      | .ok (some trak) =>
        match findBox buf trak.bstart trak.bend mdiaCC with
        | .error _ => .error ()
        | .ok none => trakLoop buf moovEnd fuel trak.bend
        | .ok (some mdia) =>
          match findBox buf mdia.bstart mdia.bend hdlrCC with
          | .error _ => .error ()
          | .ok none => trakLoop buf moovEnd fuel trak.bend
          | .ok (some hdlr) =>
            if read4 buf (hdlr.bstart + 8) = videCC then parseStts buf mdia
            else trakLoop buf moovEnd fuel trak.bend
    else .ok none

/-- `parseFrameDurations()` (the spec's `locateVideoFrameDurations`). -/
def parseFrameDurations (buf : List Nat) : Except Unit (Option (List ℚ)) :=
  match findBox buf 0 buf.length moovCC with
  | .error _ => .error ()
  | .ok none => .ok none
  | .ok (some moov) => trakLoop buf moov.bend (moov.bend + 1) moov.bstart

/-- The `SeiFrame` interface of `src/server/sei.ts` (the record built by
`decodeSei`).  The scalar protobuf values are kept as the raw decoded
wire values (`Nat`); boolean fields as `Bool`.  Note the source record has
exactly these eleven fields — in particular no `acceleratorPedalPosition`. -/
structure SeiFrame where
  frameSeqNo : Nat
  vehicleSpeedMps : Nat
  steeringWheelAngle : Nat
  gearState : Nat
  autopilotState : Nat
  brakeApplied : Bool
  blinkerOnLeft : Bool
  blinkerOnRight : Bool
  latitudeDeg : Nat
  longitudeDeg : Nat
  headingDeg : Nat
deriving DecidableEq, Repr

/-- `TelemetryData` of the source: parallel arrays of frame times (ms) and
decoded frames. -/
structure TelemetryData where
  frameTimesMs : List ℚ
  frames : List SeiFrame
deriving DecidableEq, Repr

/-- Modelled from the spec: the decoded form of the `SeiMetadata` protobuf
message.  The schema file `dashcam.proto` is not part of the sources; the
spec lists its fields as "frame sequence number, vehicle speed, steering
angle, gear state, autopilot state, brake/blinker booleans,
lat/lon/heading, accelerator position".  Each field is optional (protobuf
scalar fields default on absence); values are the raw varint wire values. -/
structure PbMsg where
  frameSeqNo : Option Nat
  vehicleSpeedMps : Option Nat
  steeringWheelAngle : Option Nat
  gearState : Option Nat
  autopilotState : Option Nat
  brakeApplied : Option Nat
  blinkerOnLeft : Option Nat
  blinkerOnRight : Option Nat
  latitudeDeg : Option Nat
  longitudeDeg : Option Nat
  headingDeg : Option Nat
  acceleratorPedalPosition : Option Nat
deriving DecidableEq, Repr

/-- The message with every field absent. -/
def pbEmpty : PbMsg :=
  ⟨none, none, none, none, none, none, none, none, none, none, none, none⟩

/-- Base-128 varint reader (little-endian 7-bit groups); `none` on a
truncated varint. -/
def readVarint : List Nat → Option (Nat × List Nat)
  | [] => none
  | b :: rest =>
    if b < 128 then some (b, rest)
    else
      match readVarint rest with
      | none => none
      | some (v, rest') => some (b % 128 + 128 * v, rest')

/-- Modelled from the spec: store a decoded varint into the message field
with the given protobuf field number (1–12, in the order the spec lists
the schema fields); unknown field numbers are ignored. -/
def pbSet (m : PbMsg) (fieldNo v : Nat) : PbMsg :=
  match fieldNo with
  | 1 => { m with frameSeqNo := some v }
  | 2 => { m with vehicleSpeedMps := some v }
  | 3 => { m with steeringWheelAngle := some v }
  | 4 => { m with gearState := some v }
  | 5 => { m with autopilotState := some v }
  | 6 => { m with brakeApplied := some v }
  | 7 => { m with blinkerOnLeft := some v }
  | 8 => { m with blinkerOnRight := some v }
  | 9 => { m with latitudeDeg := some v }
  | 10 => { m with longitudeDeg := some v }
  | 11 => { m with headingDeg := some v }
  | 12 => { m with acceleratorPedalPosition := some v }
  | _ => m

/-- Modelled from the spec: the protobuf message decode loop.  Every
modelled field is a varint (wire type 0); a tag with any other wire type,
a field number 0 or a truncated varint is a decode failure (`none`), which
`decodeSei` catches.  Each iteration consumes at least one byte, so fuel
`bytes.length + 1` is never exhausted before the input is. -/
def pbLoop : Nat → PbMsg → List Nat → Option PbMsg
  | _, m, [] => some m
  | 0, _, _ :: _ => none
  | fuel + 1, m, b :: bs =>
    match readVarint (b :: bs) with
    | none => none
    | some (tag, rest) =>
      if tag % 8 = 0 ∧ tag / 8 ≠ 0 then
        match readVarint rest with
        | none => none
        | some (v, rest') => pbLoop fuel (pbSet m (tag / 8) v) rest'
      else none

/-- Modelled from the spec: `SeiMetadata.decode(payload)`; `none` models a
thrown decode error. -/
def pbDecode (bytes : List Nat) : Option PbMsg :=
  pbLoop (bytes.length + 1) pbEmpty bytes

/-- The state-passing loop of `stripEmulationBytes`: `zeros` counts the
run of `0x00` bytes seen; a `0x03` after two-or-more zeros is dropped. -/
def stripEmu : Nat → List Nat → List Nat
  | _, [] => []
  | zeros, b :: rest =>
    if 2 ≤ zeros ∧ b = 3 then stripEmu 0 rest
    else b :: stripEmu (if b = 0 then zeros + 1 else 0) rest

/-- `stripEmulationBytes(data)`: rewrite every `00 00 03` to `00 00`. -/
def stripEmulationBytes (data : List Nat) : List Nat :=
  stripEmu 0 data

/-- Length of the leading run of `0x42` bytes; `decodeSei`'s
`while (i < nal.length && nal[i] === 0x42) i++` starting at index 3
stops at index `3 + run42 (nal.drop 3)`. -/
def run42 : List Nat → Nat
  | [] => 0
  | b :: rest => if b = 66 then run42 rest + 1 else 0

/-- `decodeSei(nal)`: vendor-marker scan (a run of `0x42` then one `0x69`),
then emulation-prevention stripping of `nal[i+1 .. len-1)`, then the
protobuf decode; any failure yields `null`. -/
def decodeSei (nal : List Nat) : Option SeiFrame :=
  if nal.length < 4 then none
  else
    let i := 3 + run42 (nal.drop 3)
    if i ≤ 3 ∨ nal.length ≤ i + 1 ∨ byteAt nal i ≠ 105 then none
    else
      let payload := stripEmulationBytes ((nal.take (nal.length - 1)).drop (i + 1))
      match pbDecode payload with
      | none => none
      | some msg =>
        some { frameSeqNo := msg.frameSeqNo.getD 0
               vehicleSpeedMps := msg.vehicleSpeedMps.getD 0
               steeringWheelAngle := msg.steeringWheelAngle.getD 0
               gearState := msg.gearState.getD 0
               autopilotState := msg.autopilotState.getD 0
               brakeApplied := msg.brakeApplied.getD 0 != 0
               blinkerOnLeft := msg.blinkerOnLeft.getD 0 != 0
               blinkerOnRight := msg.blinkerOnRight.getD 0 != 0
               latitudeDeg := msg.latitudeDeg.getD 0
               longitudeDeg := msg.longitudeDeg.getD 0
               headingDeg := msg.headingDeg.getD 0 }

/-- The NAL walk of `extractSeiMessages` over `[cursor, e)`, with fuel.
Each iteration advances the cursor by `4 + max(nalSize, 0) ≥ 4`, so any
fuel with `e.toNat ≤ cursor + 4 * fuel` gives the loop's result (see the
stabilisation theorem for claim C10).  `x % 32` is `x & 0x1f`. -/
def nalWalk (buf : List Nat) (e : Int) : Nat → Nat → Except Unit (List SeiFrame)
  | 0, _ => .ok []
  | fuel + 1, cursor =>
    if (cursor : Int) + 4 ≤ e then
      match getU32 buf cursor with
      | .error _ => .error ()
      | .ok nalSize =>
        if nalSize < 2 ∨ buf.length < cursor + 4 + nalSize then
          nalWalk buf e fuel (cursor + 4 + nalSize)
        else
          let nal := (buf.drop (cursor + 4)).take nalSize
          match (if byteAt buf (cursor + 4) % 32 = 6 ∧ byteAt buf (cursor + 5) = 5
                 then decodeSei nal else none) with
          | some fr =>
            match nalWalk buf e fuel (cursor + 4 + nalSize) with
            | .error _ => .error ()
            | .ok rest => .ok (fr :: rest)
          | none => nalWalk buf e fuel (cursor + 4 + nalSize)
    else .ok []

/-- `extractSeiMessages()`: locate `mdat`, then walk its content as
length-prefixed NAL units collecting decoded SEI frames. -/
def extractSeiMessages (buf : List Nat) : Except Unit (List SeiFrame) :=
  match findMdat buf with
  | .error _ => .error ()
  | .ok none => .ok []
  | .ok (some md) =>
    let e : Int := (md.1 : Int) + md.2
    nalWalk buf e (e.toNat + 1) md.1

/-- `frames.reduce((m, f) => Math.min(m, f.frameSeqNo), Infinity)` on the
(non-empty) list of sequence numbers. -/
def listMin : List Nat → Nat
  | [] => 0
  | x :: xs => xs.foldl Nat.min x

/-- The fallback frame time `(frameSeqNo - minSeq) * (1000 / 36)`. -/
def fbTime (m s : Nat) : ℚ :=
  (((s : Int) - (m : Int) : Int) : ℚ) * (1000 / 36)

/-- The cumulative-duration array: `cumulative[i]` is the sum of the first
`i` durations (`cumulative[0] = 0`, `cumulative[i+1] = cumulative[i] +
durations[i]`), expressed as partial sums. -/
def cumul (ds : List ℚ) : List ℚ :=
  (List.range (ds.length + 1)).map (fun i => (ds.take i).sum)

/-- The per-frame time in the duration-table path:
`relIdx = min(frameSeqNo - minSeq, durations.length - 1)` and
`cumulative[max(0, relIdx)]`. -/
def timeOfSeq (ds : List ℚ) (m s : Nat) : ℚ :=
  (cumul ds).getD (max 0 (min ((s : Int) - (m : Int)) ((ds.length : Int) - 1))).toNat 0

/-- `extractTelemetry(filePath)` on the file's bytes: extract SEI frames
(`null` when none decode), then map each frame to a time via the `stts`
durations, falling back to a constant 36 fps spacing. -/
def extractTelemetry (buf : List Nat) : Except Unit (Option TelemetryData) :=
  match extractSeiMessages buf with
  | .error _ => .error ()
  | .ok frames =>
    if frames.length = 0 then .ok none
    else
      match parseFrameDurations buf with
      | .error _ => .error ()
      | .ok dsOpt =>
        let m := listMin (frames.map (fun f => f.frameSeqNo))
        let times :=
          match dsOpt with
          | some ds =>
            if 0 < ds.length then frames.map (fun f => timeOfSeq ds m f.frameSeqNo)
            else frames.map (fun f => fbTime m f.frameSeqNo)
          | none => frames.map (fun f => fbTime m f.frameSeqNo)
        .ok (some ⟨times, frames⟩)

/-- ASCII bytes of the end-of-stream marker `"#EXT-X-ENDLIST"` that
`isCompleteManifest` searches for. -/
def endlistMarker : List Nat := [35, 69, 88, 84, 45, 88, 45, 69, 78, 68, 76, 73, 83, 84]

/-- `content.includes("#EXT-X-ENDLIST")` on manifest bytes; this is the
body of `isCompleteManifest` once the file content is read
(`isCompleteManifest` itself returns `false` when the read throws, i.e.
when the manifest is absent). -/
def hasEndlist (c : List Nat) : Bool :=
  decide (endlistMarker <:+: c)

/-- The failure-salvage block of `runSegmentation` (lines 838–845): read
the manifest (missing file → caught, nothing happens); if it does not
already contain the end-of-stream marker, write it back with
`"#EXT-X-ENDLIST\n"` appended (10 is the newline byte). -/
def salvageManifest : Option (List Nat) → Option (List Nat)
  | none => none
  | some c => if hasEndlist c then some c else some (c ++ (endlistMarker ++ [10]))

/-- The tail of `runSegmentation` after the ffmpeg process closes with
`exitCode` (`none` models a `null` exit code, e.g. after the SIGKILL
timeout): exit code 0 returns `true` leaving the manifest alone; anything
else returns `false` after the salvage block. -/
def segmentationEpilogue (exitCode : Option Int) (m : Option (List Nat)) :
    Bool × Option (List Nat) :=
  if exitCode = some 0 then (true, m) else (false, salvageManifest m)

/-- Program counter of one `ensureHlsSegments` caller for a fixed cache
key.  Code between two `await`s runs atomically on the event loop, so each
constructor is one resumption point:
`start` — entered, suspended on `isCompleteManifest`'s file read;
`atStat` — past the (negative) completeness check and the (empty)
`activeJobs` lookup, suspended on `await stat(manifestFile)`;
`atRm` — the stat succeeded (stale manifest), suspended on the
`rm` of the cache directory;
`waiting j` — this caller's promise is job `j`'s shared outcome (either it
found `activeJobs` occupied, or it started job `j` itself and registered
it — the code from `runSegmentation(...)` to `activeJobs.set` has no
`await`, so it is a single atomic segment);
`done b` — the call returned `b`. -/
inductive CPc where
  | start
  | atStat
  | atRm
  | waiting (j : Nat)
  | done (b : Bool)
deriving DecidableEq, Repr

/-- Program counter of one spawned `runSegmentation` job: `acquiring` —
created, suspended inside `acquireSlot`; `running` — slot held, `mkdir`
done, ffmpeg process spawned; `finished` — process closed, epilogue and
`finally` block done. -/
inductive JPc where
  | acquiring
  | running
  | finished
deriving DecidableEq, Repr

/-- Shared state of the engine for one cache key: the manifest file bytes
(`none` = absent), the `activeJobs` entry for the key, the callers' and
jobs' program counters, the number of external processes spawned so far,
and the occupied semaphore slots (`activeCount`). -/
structure Sys where
  manifest : Option (List Nat)
  activeJob : Option Nat
  callers : List CPc
  jobs : List JPc
  spawnCount : Nat
  slots : Nat
deriving DecidableEq, Repr

/-- A scheduler choice: resume caller `i`, let job `j` acquire its slot
and spawn, or let job `j`'s process exit with success flag `ok`. -/
inductive SchedLabel where
  | caller (i : Nat)
  | jobRun (j : Nat)
  | jobExit (j : Nat) (ok : Bool)
deriving DecidableEq, Repr

/-- The synchronous tail of `ensureHlsSegments` once no manifest blocks the
way: call `runSegmentation` (creating a fresh job), build the
`Promise.race`, and register it in `activeJobs` — all before any `await`. -/
def spawnSeg (s : Sys) (i : Nat) : Sys :=
  { s with jobs := s.jobs ++ [JPc.acquiring],
           activeJob := some s.jobs.length,
           callers := s.callers.set i (CPc.waiting s.jobs.length) }

/-- Resume caller `i` at its current suspension point (see `CPc`). -/
def stepCaller (s : Sys) (i : Nat) : Sys :=
  match s.callers.getD i (CPc.done false) with
  | CPc.start =>
    if hasEndlist (s.manifest.getD []) then
      { s with callers := s.callers.set i (CPc.done true) }
    else
      match s.activeJob with
      | some j => { s with callers := s.callers.set i (CPc.waiting j) }
      | none => { s with callers := s.callers.set i CPc.atStat }
  | CPc.atStat =>
    match s.manifest with
    | some _ => { s with callers := s.callers.set i CPc.atRm }
    | none => spawnSeg s i
  | CPc.atRm => spawnSeg { s with manifest := none } i
  | _ => s

/-- Job `j` passes `acquireSlot` (only when a slot is free) and reaches its
`spawn("ffmpeg", ...)` call. -/
def stepJobRun (maxc : Nat) (s : Sys) (j : Nat) : Sys :=
  match s.jobs.getD j JPc.finished with
  | JPc.acquiring =>
    if s.slots < maxc then
      { s with jobs := s.jobs.set j JPc.running,
               slots := s.slots + 1,
               spawnCount := s.spawnCount + 1 }
    else s
  | _ => s

/-- Job `j`'s process closes with outcome `ok`: the epilogue salvages the
manifest on failure, the `finally` block releases the slot and deletes the
`activeJobs` entry for the key (unconditionally), and every caller awaiting
job `j`'s shared promise observes the outcome. -/
def stepJobExit (s : Sys) (j : Nat) (ok : Bool) : Sys :=
  match s.jobs.getD j JPc.finished with
  | JPc.running =>
    { s with jobs := s.jobs.set j JPc.finished,
             slots := s.slots - 1,
             manifest := if ok then s.manifest else salvageManifest s.manifest,
             activeJob := none,
             callers := s.callers.map (fun c =>
               match c with
               | CPc.waiting j' => if j' = j then CPc.done ok else c
               | _ => c) }
  | _ => s

/-- One scheduler step. -/
def step (maxc : Nat) (s : Sys) : SchedLabel → Sys
  | .caller i => stepCaller s i
  | .jobRun j => stepJobRun maxc s j
  | .jobExit j ok => stepJobExit s j ok

/-- Run a whole schedule. -/
def runTrace (maxc : Nat) : Sys → List SchedLabel → Sys
  | s, [] => s
  | s, l :: ls => runTrace maxc (step maxc s l) ls

/-- Big-endian 32-bit encoding of `n` as four bytes. -/
def be32 (n : Nat) : List Nat :=
  [n / 16777216 % 256, n / 65536 % 256, n / 256 % 256, n % 256]

/-- Assemble an MP4 box: 32-bit size header, four-character code, content. -/
def mkBox (tag content : List Nat) : List Nat :=
  be32 (content.length + 8) ++ tag ++ content

/-- A length-prefixed NAL unit as laid out inside `mdat`. -/
def lpNal (nal : List Nat) : List Nat :=
  be32 nal.length ++ nal

/-- A minimal vendor SEI NAL carrying `frameSeqNo = n` (`n < 128`):
NAL header `0x06`, payload type `0x05`, one skipped byte, marker `0x42`
`0x69`, protobuf field 1 varint `n`, RBSP trailing byte `0x80`. -/
def seiNal (n : Nat) : List Nat :=
  [6, 5, 0, 66, 105, 8, n, 128]

/-- The all-default telemetry frame. -/
def zeroFrame : SeiFrame :=
  ⟨0, 0, 0, 0, 0, false, false, false, 0, 0, 0⟩

/-- A telemetry frame whose only non-default field is `frameSeqNo`. -/
def seqFrame (n : Nat) : SeiFrame :=
  { zeroFrame with frameSeqNo := n }

/-- An MP4 file whose `mdat` holds two SEI frames in stream order with
DECREASING sequence numbers 2, 1 and which has no `moov` (so the 36 fps
fallback applies). -/
def c2buf : List Nat :=
  mkBox mdatCC (lpNal (seiNal 2) ++ lpNal (seiNal 1))

/-- The telemetry `extractTelemetry` produces for `c2buf`: times
`[fbTime 1 2, fbTime 1 1] = [1000/36, 0]` — strictly decreasing in array
order. -/
def c2td : TelemetryData :=
  ⟨[fbTime 1 2, fbTime 1 1], [seqFrame 2, seqFrame 1]⟩

/-- An MP4 file with two SEI frames with increasing sequence numbers and no
`moov`. -/
def c7buf : List Nat :=
  mkBox mdatCC (lpNal (seiNal 1) ++ lpNal (seiNal 2))

/-- The telemetry extracted from `c7buf`: fallback times `[0, 1000/36]`. -/
def c7td : TelemetryData :=
  ⟨[fbTime 1 1, fbTime 1 2], [seqFrame 1, seqFrame 2]⟩

/-- An MP4 file with one SEI frame (sequence number 3) and no `moov`. -/
def c6buf : List Nat :=
  mkBox mdatCC (lpNal (seiNal 3))

/-- The telemetry extracted from `c6buf`: one frame at fallback time 0. -/
def c6td : TelemetryData :=
  ⟨[fbTime 3 3], [seqFrame 3]⟩

/-- A vendor SEI NAL whose protobuf payload sets only `frameSeqNo = 1`. -/
def nalNoAccel : List Nat := [6, 5, 0, 66, 105, 8, 1, 128]

/-- A vendor SEI NAL whose protobuf payload sets `frameSeqNo = 1` AND
`acceleratorPedalPosition = 5` (field 12, tag byte `0x60` = 96). -/
def nalAccel : List Nat := [6, 5, 0, 66, 105, 8, 1, 96, 5, 128]

/-- A vendor SEI NAL with an empty protobuf payload (every field absent). -/
def nalMin : List Nat := [6, 5, 0, 66, 105, 128]

/-- A 16-byte buffer holding a single `moov` box in 64-bit extended-size
form whose declared size is 8 — smaller than its own 16-byte header. -/
def bufExt16 : List Nat :=
  [0, 0, 0, 1] ++ moovCC ++ [0, 0, 0, 0, 0, 0, 0, 8]

/-- An 8-byte buffer that is exactly a 64-bit extended-size `mdat` header
with the extended size itself truncated away. -/
def bufTrunc8 : List Nat :=
  [0, 0, 0, 1] ++ mdatCC

/-- The `stts` box of the well-formed chain: version/flags, one entry,
sample count 2, sample delta 500. -/
def c5stts : List Nat :=
  mkBox sttsCC ([0, 0, 0, 0] ++ be32 1 ++ be32 2 ++ be32 500)

/-- `mdhd` version 0 with timescale 1000 at content offset 12. -/
def c5mdhd : List Nat :=
  mkBox mdhdCC ([0, 0, 0, 0] ++ be32 0 ++ be32 0 ++ be32 1000 ++ be32 0)

/-- `hdlr` with handler type `"vide"` at content offset 8. -/
def c5hdlr : List Nat :=
  mkBox hdlrCC ([0, 0, 0, 0] ++ be32 0 ++ videCC ++ be32 0)

/-- The `mdia` box of the well-formed chain. -/
def c5mdia : List Nat :=
  mkBox mdiaCC (c5mdhd ++ c5hdlr ++ mkBox minfCC (mkBox stblCC c5stts))

/-- A buffer holding a complete well-formed
`moov/trak/mdia/(hdlr vide)/mdhd/minf/stbl/stts` chain: timescale 1000,
one run of 2 samples with delta 500. -/
def c5buf : List Nat :=
  mkBox moovCC (mkBox trakCC c5mdia)

/-- Two callers of `ensureHlsSegments` for the same cache key, no cache on
disk, no in-flight job. -/
def initTwoCallers : Sys :=
  ⟨none, none, [CPc.start, CPc.start], [], 0, 0⟩

/-- A legal event-loop interleaving: both callers' completeness reads
resolve (neither sees an `activeJobs` entry, both suspend on
`await stat`), then both stats reject and each caller starts and registers
its own segmentation job; finally both jobs acquire a slot and spawn. -/
def raceTrace : List SchedLabel :=
  [.caller 0, .caller 1, .caller 0, .caller 1, .jobRun 0, .jobRun 1]

/-- C4 (helper): every box the `findBox` scan loop returns ends within the
scan range and spans at least 8 bytes from its own position. -/
theorem findBoxLoop_found_bounds (buf : List Nat) (fin : Nat) (name : List Nat) :
    ∀ fuel pos b, findBoxLoop buf fin name fuel pos = .ok (some b) →
      pos + 8 ≤ b.bend ∧ b.bend ≤ fin := by
  intro fuel
  induction fuel with
  | zero => intro pos b h; simp [findBoxLoop] at h
  | succ f ih =>
    intro pos b h
    rw [findBoxLoop] at h
    split at h
    · split at h
      · exact absurd h (by simp)
      · split at h
        · exact absurd h (by simp)
        · split at h
          · exact absurd h (by simp)
          · split at h
            · rename_i hsz _ _ _ hnot _
              obtain rfl : FoundBox.mk _ _ _ = b := by
                simpa using h
              simp only []
              omega
            · have := ih _ _ h
              omega
    · exact absurd h (by simp)

/-- C4 (corrected): `findBox` terminates for every buffer and scan range
(it is a total function below), and every box it returns lies inside the
range: its end offset is at most `end` and at least `start + 8` (so a
declared size extending past `end`, or smaller than 8, is never returned).
The original claim's further demands are refuted by the counterexample:
the 16-byte minimum for the 64-bit extended-size form is NOT enforced, and
the extended-size read itself is NOT bounds-checked. -/
theorem findBox_found_in_range (buf : List Nat) (s fin : Nat) (name : List Nat)
    (b : FoundBox) (h : findBox buf s fin name = .ok (some b)) :
    s + 8 ≤ b.bend ∧ b.bend ≤ fin :=
  findBoxLoop_found_bounds buf fin name (fin + 1) s b h

/-- C4 (witness): the bounds theorem applied to a concrete 8-byte `moov`
box found in a 16-byte... in fact an exactly-8-byte buffer. -/
theorem findBox_found_in_range_witness :
    (0 : Nat) + 8 ≤ (FoundBox.mk 8 8 0).bend ∧ (FoundBox.mk 8 8 0).bend ≤ 8 :=
  findBox_found_in_range (mkBox moovCC []) 0 8 moovCC ⟨8, 8, 0⟩ (by decide)

/-- C4 (counterexample): the claim as stated is false on two concrete
inputs.  `bufExt16` is a single 64-bit extended-size `moov` box whose
declared size 8 is smaller than its own 16-byte header, yet `findBox`
returns it (with inverted content bounds `start = 16 > end = 8`) instead
of not-found; `bufTrunc8` ends right after a `size == 1` header, and the
extended-size read goes past the end of the buffer (a thrown
`RangeError`), i.e. the scan does not stop with not-found. -/
theorem findBox_rejection_counterexample :
    findBox bufExt16 0 16 moovCC = .ok (some ⟨16, 8, -8⟩) ∧
    findBox bufTrunc8 0 8 mdatCC = .error () := by
  decide

/-- C1 (code bug): two concurrent `ensureHlsSegments` callers for the same
cache key, starting with no cache entry on disk, can BOTH spawn an
external process: `ensureHlsSegments` suspends on `await stat(...)`
between reading `activeJobs` and writing it, so under `raceTrace` both
callers pass the (empty) `activeJobs` check before either registers a job,
and two ffmpeg processes are spawned — the deduplication contract promised
by the spec and by the source's own comments requires exactly one. -/
theorem ensureHls_dedup_race_two_spawns :
    (runTrace 2 initTwoCallers raceTrace).spawnCount = 2 ∧
    (runTrace 2 initTwoCallers raceTrace).jobs.length = 2 := by
  decide

/-- C3 (code bug): the decoded record `decodeSei` builds omits
`acceleratorPedalPosition` even though the decoded protobuf message
carries it: two NALs whose payloads differ exactly in the accelerator
field (absent vs `5`) decode to THE SAME `SeiFrame`, while the message
decode distinguishes them; the remaining eleven fields do default to
zero/false when absent (`nalMin` has an empty payload). -/
theorem decodeSei_drops_accelerator :
    decodeSei nalNoAccel = decodeSei nalAccel ∧
    decodeSei nalAccel = some (seqFrame 1) ∧
    pbDecode [8, 1] ≠ pbDecode [8, 1, 96, 5] ∧
    (pbDecode [8, 1, 96, 5]).map (fun m => m.acceleratorPedalPosition) =
      some (some 5) ∧
    decodeSei nalMin = some zeroFrame := by
  decide

/-- C9: whenever the ffmpeg process closes with anything other than exit
code 0 (including the `null` exit code left by the SIGKILL timeout) and a
manifest file exists, the `runSegmentation` epilogue returns `false` and
leaves the manifest containing the end-of-stream marker — appending
`"#EXT-X-ENDLIST\n"` exactly when the marker was not already present. -/
theorem runSegmentation_failure_salvage (code : Option Int) (c : List Nat)
    (hfail : code ≠ some 0) :
    (segmentationEpilogue code (some c)).1 = false ∧
    (segmentationEpilogue code (some c)).2 =
      some (if hasEndlist c then c else c ++ (endlistMarker ++ [10])) ∧
    hasEndlist (((segmentationEpilogue code (some c)).2).getD []) = true := by
  have hmarservice : ∀ d : List Nat, hasEndlist (d ++ (endlistMarker ++ [10])) = true := by
    intro d
    simp only [hasEndlist, decide_eq_true_eq]
    exact ⟨d, [10], by simp⟩
  simp only [segmentationEpilogue, if_neg hfail, salvageManifest]
  by_cases hc : hasEndlist c
  · simp [hc]
  · simp only [hc, if_neg (by simp [hc] : ¬ hasEndlist c = true)]
    simp [hmarservice, hc]

/-- C9 (witness): the salvage theorem at the `null` exit code and an empty
manifest. -/
theorem runSegmentation_failure_salvage_witness :
    (segmentationEpilogue none (some [])).1 = false ∧
    (segmentationEpilogue none (some [])).2 =
      some (if hasEndlist [] then [] else [] ++ (endlistMarker ++ [10])) ∧
    hasEndlist (((segmentationEpilogue none (some [])).2).getD []) = true :=
  runSegmentation_failure_salvage none [] (by decide)

/-- C10: the NAL walk of `extractSeiMessages` terminates on every input,
malformed ones included: each iteration advances the cursor by
`4 + max(nalSize, 0) ≥ 4`, so any fuel covering `end - cursor` at four
bytes per step computes the loop's fixed result — the walk is independent
of the fuel beyond that bound, i.e. the loop always exits through its
cursor guard and returns the (possibly empty) frame list. -/
theorem nalWalk_terminates (buf : List Nat) (e : Int) :
    ∀ f1 f2 c, e.toNat ≤ c + 4 * f1 → e.toNat ≤ c + 4 * f2 →
      nalWalk buf e f1 c = nalWalk buf e f2 c := by
  intro f1
  induction f1 with
  | zero =>
    intro f2 c h1 h2
    cases f2 with
    | zero => rfl
    | succ g =>
      rw [nalWalk, nalWalk]
      rw [if_neg (by omega)]
  | succ a ih =>
    intro f2 c h1 h2
    cases f2 with
    | zero =>
      rw [nalWalk, nalWalk]
      rw [if_neg (by omega)]
    | succ b =>
      rw [nalWalk]
      conv_rhs => rw [nalWalk]
      split
      · rename_i hguard
        have hcur : c + 4 ≤ e.toNat := by omega
        cases hu : getU32 buf c with
        | error u => rfl
        | ok nalSize =>
          simp only []
          split
          · exact ih b (c + 4 + nalSize) (by omega) (by omega)
          · rw [ih b (c + 4 + nalSize) (by omega) (by omega)]
      · rfl

/-- C10 (witness): the stabilisation theorem at concrete fuels 0 and 3 on
the empty buffer. -/
theorem nalWalk_terminates_witness :
    nalWalk [] 0 0 0 = nalWalk [] 0 3 0 :=
  nalWalk_terminates [] 0 0 3 0 (by decide) (by decide)

/-- C8 (helper): one scheduler step preserves the "fully cached" invariant:
with a complete manifest on disk, no in-flight job and every caller either
not yet resumed or already returned `true`, any step keeps the manifest,
creates no job and spawns nothing. -/
theorem cachedStepInv (c : List Nat) (n maxc : Nat) (hc : hasEndlist c = true)
    (s : Sys) (h1 : s.manifest = some c) (h2 : s.activeJob = none)
    (h3 : s.jobs = []) (h4 : s.spawnCount = n)
    (h5 : ∀ pc ∈ s.callers, pc = CPc.start ∨ pc = CPc.done true)
    (l : SchedLabel) :
    (step maxc s l).manifest = some c ∧ (step maxc s l).activeJob = none ∧
    (step maxc s l).jobs = [] ∧ (step maxc s l).spawnCount = n ∧
    ∀ pc ∈ (step maxc s l).callers, pc = CPc.start ∨ pc = CPc.done true := by
  cases l with
  | caller i =>
    have hd : s.callers.getD i (CPc.done false) = CPc.start ∨
        s.callers.getD i (CPc.done false) = CPc.done true ∨
        s.callers.getD i (CPc.done false) = CPc.done false := by
      by_cases hi : i < s.callers.length
      · rw [List.getD_eq_getElem s.callers (CPc.done false) hi]
        rcases h5 _ (List.getElem_mem hi) with h | h
        · exact Or.inl h
        · exact Or.inr (Or.inl h)
      · rw [List.getD_eq_default s.callers (CPc.done false) (by omega)]
        exact Or.inr (Or.inr rfl)
    rcases hd with hd | hd | hd
    · have hs : step maxc s (SchedLabel.caller i) =
          { s with callers := s.callers.set i (CPc.done true) } := by
        simp only [step, stepCaller, hd, h1, Option.getD_some, hc, if_true]
      rw [hs]
      refine ⟨h1, h2, h3, h4, ?_⟩
      intro pc hpc
      rcases List.mem_or_eq_of_mem_set hpc with h | h
      · exact h5 pc h
      · exact Or.inr h
    · have hs : step maxc s (SchedLabel.caller i) = s := by
        simp only [step, stepCaller, hd]
      rw [hs]
      exact ⟨h1, h2, h3, h4, h5⟩
    · have hs : step maxc s (SchedLabel.caller i) = s := by
        simp only [step, stepCaller, hd]
      rw [hs]
      exact ⟨h1, h2, h3, h4, h5⟩
  | jobRun j =>
    have hid : step maxc s (SchedLabel.jobRun j) = s := by
      simp [step, stepJobRun, h3, List.getD]
    rw [hid]
    exact ⟨h1, h2, h3, h4, h5⟩
  | jobExit j ok =>
    have hid : step maxc s (SchedLabel.jobExit j ok) = s := by
      simp [step, stepJobExit, h3, List.getD]
    rw [hid]
    exact ⟨h1, h2, h3, h4, h5⟩

/-- C8: with a manifest on disk that carries the end-of-stream marker,
`ensureHlsSegments` returns `true` on its first resumption without
touching anything (last conjunct), and under EVERY schedule — any number
of further steps — the spawn count never moves and no caller ever reaches
a spawning state: a second sequential call after a completed first one
performs zero additional process spawns. -/
theorem ensureHls_cached_idempotent (c : List Nat) (n maxc : Nat)
    (hc : hasEndlist c = true) (tr : List SchedLabel) :
    (runTrace maxc ⟨some c, none, [CPc.start], [], n, 0⟩ tr).spawnCount = n ∧
    (∀ pc ∈ (runTrace maxc ⟨some c, none, [CPc.start], [], n, 0⟩ tr).callers,
      pc = CPc.start ∨ pc = CPc.done true) ∧
    (step maxc ⟨some c, none, [CPc.start], [], n, 0⟩ (SchedLabel.caller 0)).callers =
      [CPc.done true] := by
  have aux : ∀ (t : List SchedLabel) (s : Sys),
      s.manifest = some c → s.activeJob = none → s.jobs = [] →
      s.spawnCount = n →
      (∀ pc ∈ s.callers, pc = CPc.start ∨ pc = CPc.done true) →
      (runTrace maxc s t).manifest = some c ∧
      (runTrace maxc s t).activeJob = none ∧
      (runTrace maxc s t).jobs = [] ∧
      (runTrace maxc s t).spawnCount = n ∧
      ∀ pc ∈ (runTrace maxc s t).callers, pc = CPc.start ∨ pc = CPc.done true := by
    intro t
    induction t with
    | nil => intro s h1 h2 h3 h4 h5; exact ⟨h1, h2, h3, h4, h5⟩
    | cons l ls ih =>
      intro s h1 h2 h3 h4 h5
      have hstep := cachedStepInv c n maxc hc s h1 h2 h3 h4 h5 l
      exact ih (step maxc s l) hstep.1 hstep.2.1 hstep.2.2.1 hstep.2.2.2.1 hstep.2.2.2.2
  have hinit : ∀ pc ∈ [CPc.start], pc = CPc.start ∨ pc = CPc.done true := by
    intro pc hpc
    simp only [List.mem_singleton] at hpc
    exact Or.inl hpc
  have h := aux tr ⟨some c, none, [CPc.start], [], n, 0⟩ rfl rfl rfl rfl hinit
  refine ⟨h.2.2.2.1, h.2.2.2.2, ?_⟩
  simp [step, stepCaller, List.getD, hc]

/-- C8 (witness): the idempotence theorem at a concrete complete manifest
(the marker itself), a one-step schedule and spawn count 0. -/
theorem ensureHls_cached_idempotent_witness :
    (runTrace 2 ⟨some endlistMarker, none, [CPc.start], [], 0, 0⟩
        [SchedLabel.caller 0]).spawnCount = 0 ∧
    (∀ pc ∈ (runTrace 2 ⟨some endlistMarker, none, [CPc.start], [], 0, 0⟩
        [SchedLabel.caller 0]).callers, pc = CPc.start ∨ pc = CPc.done true) ∧
    (step 2 ⟨some endlistMarker, none, [CPc.start], [], 0, 0⟩
        (SchedLabel.caller 0)).callers = [CPc.done true] :=
  ensureHls_cached_idempotent endlistMarker 0 2 (by decide) [SchedLabel.caller 0]

/-- Every duration produced by the `stts` expansion is nonnegative. -/
theorem sttsExpand_nonneg (entries : List (Nat × Nat)) (ts : Nat) :
    ∀ q ∈ sttsExpand entries ts, 0 ≤ q := by
  intro q hq
  simp only [sttsExpand, List.mem_flatMap] at hq
  obtain ⟨p, _, hp⟩ := hq
  obtain rfl := List.eq_of_mem_replicate hp
  positivity

/-- Whenever `parseStts` returns a duration list, all its entries are
nonnegative. -/
theorem parseStts_durations_nonneg (buf : List Nat) (mdia : FoundBox) (ds : List ℚ)
    (h : parseStts buf mdia = .ok (some ds)) : ∀ q ∈ ds, 0 ≤ q := by
  intro q hq
  unfold parseStts at h
  repeat' split at h
  all_goals simp_all
  split at h
  · simp_all
  · simp only [Except.ok.injEq, Option.some.injEq] at h
    subst h
    exact sttsExpand_nonneg _ _ q hq

/-- Track-loop version of the previous lemma. -/
theorem trakLoop_durations_nonneg (buf : List Nat) (moovEnd : Nat) :
    ∀ fuel start ds, trakLoop buf moovEnd fuel start = .ok (some ds) →
      ∀ q ∈ ds, 0 ≤ q := by
  intro fuel
  induction fuel with
  | zero => intro start ds h; simp [trakLoop] at h
  | succ f ih =>
    intro start ds h
    rw [trakLoop] at h
    split at h
    · split at h
      · simp at h
      · simp at h
      · split at h
        · simp at h
        · exact ih _ _ h
        · split at h
          · simp at h
          · exact ih _ _ h
          · split at h
            · exact parseStts_durations_nonneg _ _ _ h
            · exact ih _ _ h
    · simp at h

/-- Whenever `parseFrameDurations` returns a duration list, all its
entries are nonnegative. -/
theorem parseFrameDurations_nonneg (buf : List Nat) (ds : List ℚ)
    (h : parseFrameDurations buf = .ok (some ds)) : ∀ q ∈ ds, 0 ≤ q := by
  unfold parseFrameDurations at h
  split at h
  · simp at h
  · simp at h
  · exact trakLoop_durations_nonneg _ _ _ _ _ h

/-- The cumulative array holds the partial sums of the durations. -/
theorem cumul_getD (ds : List ℚ) (i : Nat) (h : i < ds.length + 1) :
    (cumul ds).getD i 0 = (ds.take i).sum := by
  unfold cumul
  rw [List.getD_eq_getElem?_getD, List.getElem?_map, List.getElem?_range h]
  simp

/-- With nonnegative durations the cumulative array is monotone. -/
theorem cumul_mono (ds : List ℚ) (h0 : ∀ q ∈ ds, 0 ≤ q) (i j : Nat)
    (hij : i ≤ j) (hj : j < ds.length + 1) :
    (cumul ds).getD i 0 ≤ (cumul ds).getD j 0 := by
  rw [cumul_getD ds i (by omega), cumul_getD ds j hj]
  have hsplit : ds.take j = ds.take i ++ (ds.drop i).take (j - i) := by
    have hj' : j = i + (j - i) := by omega
    rw [hj', List.take_add]
    simp
  rw [hsplit, List.sum_append]
  have hmid : 0 ≤ ((ds.drop i).take (j - i)).sum := by
    apply List.sum_nonneg
    intro x hx
    exact h0 x (List.drop_subset i ds (List.take_subset _ _ hx))
  linarith

/-- The duration-table mapping of `frameSeqNo` to a time is monotone in the
sequence number. -/
theorem timeOfSeq_mono (ds : List ℚ) (h0 : ∀ q ∈ ds, 0 ≤ q) (hn : 0 < ds.length)
    (m s1 s2 : Nat) (hs : s1 ≤ s2) : timeOfSeq ds m s1 ≤ timeOfSeq ds m s2 := by
  unfold timeOfSeq
  apply cumul_mono ds h0
  · omega
  · omega

/-- The 36 fps fallback mapping is monotone in the sequence number. -/
theorem fbTime_mono (m s1 s2 : Nat) (hs : s1 ≤ s2) : fbTime m s1 ≤ fbTime m s2 := by
  unfold fbTime
  have h2 : (((s1 : Int) - m : Int) : ℚ) ≤ (((s2 : Int) - m : Int) : ℚ) := by
    exact_mod_cast (by omega : ((s1 : Int) - m : Int) ≤ ((s2 : Int) - m : Int))
  exact mul_le_mul_of_nonneg_right h2 (by norm_num)

/-- `getD` through a `map`, for indices in range. -/
theorem getD_map_of_lt {α β : Type} (l : List α) (g : α → β) (i : Nat)
    (h : i < l.length) (d : β) (d' : α) :
    (l.map g).getD i d = g (l.getD i d') := by
  rw [List.getD_eq_getElem?_getD, List.getElem?_map,
      List.getD_eq_getElem?_getD, List.getElem?_eq_getElem h]
  simp

/-- Inversion of a successful extraction: the frames come from
`extractSeiMessages`, are non-empty, and the times are the frames mapped
through either the duration-table mapping (when a non-empty duration list
was parsed) or the 36 fps fallback. -/
theorem extractTelemetry_some_spec (buf : List Nat) (td : TelemetryData)
    (h : extractTelemetry buf = .ok (some td)) :
    extractSeiMessages buf = .ok td.frames ∧ td.frames ≠ [] ∧
    ((∃ ds, parseFrameDurations buf = .ok (some ds) ∧ 0 < ds.length ∧
        td.frameTimesMs = td.frames.map (fun f =>
          timeOfSeq ds (listMin (td.frames.map (fun g => g.frameSeqNo))) f.frameSeqNo)) ∨
      td.frameTimesMs = td.frames.map (fun f =>
        fbTime (listMin (td.frames.map (fun g => g.frameSeqNo))) f.frameSeqNo)) := by
  unfold extractTelemetry at h
  cases hse : extractSeiMessages buf with
  | error u => rw [hse] at h; simp at h
  | ok frames =>
    rw [hse] at h
    dsimp only [] at h
    by_cases hlen : frames.length = 0
    · rw [if_pos hlen] at h
      simp at h
    · rw [if_neg hlen] at h
      cases hpd : parseFrameDurations buf with
      | error u => rw [hpd] at h; simp at h
      | ok dsOpt =>
        rw [hpd] at h
        cases dsOpt with
        | some ds =>
          by_cases hds : 0 < ds.length
          · simp only [if_pos hds, Except.ok.injEq, Option.some.injEq] at h
            subst h
            refine ⟨rfl, ?_, Or.inl ⟨ds, rfl, hds, rfl⟩⟩
            intro hnil
            exact hlen (by simpa using congrArg List.length hnil)
          · simp only [if_neg hds, Except.ok.injEq, Option.some.injEq] at h
            subst h
            refine ⟨rfl, ?_, Or.inr rfl⟩
            intro hnil
            exact hlen (by simpa using congrArg List.length hnil)
        | none =>
          simp only [Except.ok.injEq, Option.some.injEq] at h
          subst h
          refine ⟨rfl, ?_, Or.inr rfl⟩
          intro hnil
          exact hlen (by simpa using congrArg List.length hnil)

/-- C2 (counterexample): `extractTelemetry` on `c2buf` — two SEI frames in
stream order with sequence numbers 2 then 1 — returns frame times
`[1000/36, 0]`, which are NOT non-decreasing in array order: the claim as
stated fails because stream order need not be monotone in `frameSeqNo` and
the mapper follows `frameSeqNo`, not stream position. -/
theorem extractTelemetry_stream_order_counterexample :
    extractTelemetry c2buf = .ok (some c2td) ∧
    ¬ (c2td.frameTimesMs.getD 0 0 ≤ c2td.frameTimesMs.getD 1 0) := by
  refine ⟨rfl, ?_⟩
  simp only [c2td]
  norm_num [fbTime]

/-- C2 (corrected): the frame times are monotone with respect to the
frames' SEQUENCE NUMBERS: for any two positions in the result, the frame
with the not-larger `frameSeqNo` gets the not-larger time (so the times
are non-decreasing in array order exactly when `frameSeqNo` is). -/
theorem extractTelemetry_time_mono_in_seq (buf : List Nat) (td : TelemetryData)
    (i j : Nat) (h : extractTelemetry buf = .ok (some td))
    (hi : i < td.frames.length) (hj : j < td.frames.length)
    (hseq : (td.frames.getD i zeroFrame).frameSeqNo ≤
      (td.frames.getD j zeroFrame).frameSeqNo) :
    td.frameTimesMs.getD i 0 ≤ td.frameTimesMs.getD j 0 := by
  obtain ⟨hse, hne, hcase⟩ := extractTelemetry_some_spec buf td h
  rcases hcase with ⟨ds, hpd, hds, htimes⟩ | htimes
  · rw [htimes, getD_map_of_lt _ _ i hi _ zeroFrame, getD_map_of_lt _ _ j hj _ zeroFrame]
    exact timeOfSeq_mono ds (parseFrameDurations_nonneg buf ds hpd) hds _ _ _ hseq
  · rw [htimes, getD_map_of_lt _ _ i hi _ zeroFrame, getD_map_of_lt _ _ j hj _ zeroFrame]
    exact fbTime_mono _ _ _ hseq

/-- C2 (witness): the monotonicity theorem applied to `c2buf` at positions
1 and 0 (sequence numbers 1 ≤ 2). -/
theorem extractTelemetry_time_mono_in_seq_witness :
    c2td.frameTimesMs.getD 1 0 ≤ c2td.frameTimesMs.getD 0 0 :=
  extractTelemetry_time_mono_in_seq c2buf c2td 1 0 rfl (by decide) (by decide)
    (by decide)

/-- C6: a completed extraction returns `null` exactly when zero SEI frames
decode (an extraction that throws on a malformed container returns
neither); when it returns a `TelemetryData`, the frames are non-empty and
the time array has exactly one entry per frame. -/
theorem extractTelemetry_null_iff (buf : List Nat) (r : Option TelemetryData)
    (h : extractTelemetry buf = .ok r) :
    (r = none ↔ extractSeiMessages buf = .ok []) ∧
    ∀ td, r = some td → td.frames ≠ [] ∧
      td.frameTimesMs.length = td.frames.length := by
  cases r with
  | none =>
    refine ⟨⟨fun _ => ?_, fun _ => rfl⟩, fun td htd => by simp at htd⟩
    unfold extractTelemetry at h
    cases hse : extractSeiMessages buf with
    | error u => rw [hse] at h; simp at h
    | ok frames =>
      rw [hse] at h
      dsimp only [] at h
      by_cases hlen : frames.length = 0
      · exact congrArg Except.ok (List.length_eq_zero.mp hlen)
      · rw [if_neg hlen] at h
        cases hpd : parseFrameDurations buf with
        | error u => rw [hpd] at h; simp at h
        | ok dsOpt =>
          rw [hpd] at h
          cases dsOpt with
          | some ds =>
            by_cases hds : 0 < ds.length
            · simp [if_pos hds] at h
            · simp [if_neg hds] at h
          | none => simp at h
  | some td =>
    obtain ⟨hse, hne, hcase⟩ := extractTelemetry_some_spec buf td h
    refine ⟨⟨fun hc => by simp at hc, fun hnil => ?_⟩, fun td' htd' => ?_⟩
    · exfalso
      rw [hse] at hnil
      simp only [Except.ok.injEq] at hnil
      exact hne hnil
    · obtain rfl : td = td' := by simpa using htd'
      refine ⟨hne, ?_⟩
      rcases hcase with ⟨ds, _, _, htimes⟩ | htimes <;>
        rw [htimes, List.length_map]

/-- C6 (witness): the null-iff theorem at `c6buf`, whose single SEI frame
yields a one-frame, one-time `TelemetryData`. -/
theorem extractTelemetry_null_iff_witness :
    ((some c6td = none) ↔ extractSeiMessages c6buf = .ok []) ∧
    ∀ td, some c6td = some td →
      td.frames ≠ [] ∧ td.frameTimesMs.length = td.frames.length :=
  extractTelemetry_null_iff c6buf (some c6td) rfl

/-- C7: when frames decoded but no valid duration list exists
(`parseFrameDurations` returned `null`: missing box, zero entries or zero
timescale), every frame time is exactly
`(frameSeqNo - minSeq) * (1000 / 36)` with `minSeq` the minimum decoded
sequence number. -/
theorem extractTelemetry_fallback_exact (buf : List Nat) (td : TelemetryData)
    (i : Nat) (h : extractTelemetry buf = .ok (some td))
    (hpd : parseFrameDurations buf = .ok none)
    (hi : i < td.frames.length) :
    td.frameTimesMs.getD i 0 =
      (((td.frames.getD i zeroFrame).frameSeqNo : ℚ) -
        (listMin (td.frames.map (fun g => g.frameSeqNo)) : ℚ)) * (1000 / 36) := by
  obtain ⟨hse, hne, hcase⟩ := extractTelemetry_some_spec buf td h
  rcases hcase with ⟨ds, hpd', _, _⟩ | htimes
  · rw [hpd] at hpd'
    simp at hpd'
  · rw [htimes, getD_map_of_lt _ _ i hi _ zeroFrame]
    unfold fbTime
    push_cast
    ring

/-- C7 (witness): the fallback theorem at `c7buf` (frames with sequence
numbers 1 and 2, no `moov`), position 1: the time is
`(2 - 1) * 1000/36`. -/
theorem extractTelemetry_fallback_exact_witness :
    c7td.frameTimesMs.getD 1 0 =
      (((c7td.frames.getD 1 zeroFrame).frameSeqNo : ℚ) -
        (listMin (c7td.frames.map (fun g => g.frameSeqNo)) : ℚ)) * (1000 / 36) :=
  extractTelemetry_fallback_exact c7buf c7td 1 rfl (by decide) (by decide)

/-- The expanded duration list has one entry per sample: its length is the
sum of the run sample counts. -/
theorem sttsExpand_length (entries : List (Nat × Nat)) (ts : Nat) :
    (sttsExpand entries ts).length = (entries.map Prod.fst).sum := by
  induction entries with
  | nil => simp [sttsExpand]
  | cons p rest ih => simp_all [sttsExpand]

/-- `parseStts` on a fully-found chain with nonzero timescale and at least
one sample produces exactly the run-length expansion. -/
theorem parseStts_chain_success (buf : List Nat) (mdia mdhd minf stbl stts : FoundBox)
    (ts entryCount : Nat) (entries : List (Nat × Nat))
    (hmdhd : findBox buf mdia.bstart mdia.bend mdhdCC = .ok (some mdhd))
    (hts : (if byteAt buf mdhd.bstart = 1 then getU32 buf (mdhd.bstart + 20)
            else getU32 buf (mdhd.bstart + 12)) = .ok ts)
    (hts0 : ts ≠ 0)
    (hminf : findBox buf mdia.bstart mdia.bend minfCC = .ok (some minf))
    (hstbl : findBox buf minf.bstart minf.bend stblCC = .ok (some stbl))
    (hstts : findBox buf stbl.bstart stbl.bend sttsCC = .ok (some stts))
    (hcount : getU32 buf (stts.bstart + 4) = .ok entryCount)
    (hentries : sttsEntriesLoop buf stts.bend entryCount (stts.bstart + 8) = .ok entries)
    (hpos : 0 < (entries.map Prod.fst).sum) :
    parseStts buf mdia = .ok (some (sttsExpand entries ts)) := by
  have hlen : ¬ (sttsExpand entries ts).length = 0 := by
    rw [sttsExpand_length]
    omega
  simp only [parseStts, hmdhd, hts, if_neg hts0, hminf, hstbl, hstts, hcount,
    hentries, if_neg hlen]

/-- C5: `locateVideoFrameDurations` (`parseFrameDurations`).  Conjuncts:
(1) missing `moov` gives none; (2) `moov` with no `trak` gives none;
(3) missing `mdhd` gives none; (4) zero timescale gives none; (5) on a
buffer whose first `trak` holds a well-formed video chain
(`mdia`/`hdlr`=`vide`/`mdhd`/`minf`/`stbl`/`stts`, nonzero timescale,
entries summing to at least one sample) the result is the run-length
expansion: a list with one entry per sample — its length is the sum of the
run sample counts — every entry of which is `delta / timescale * 1000`
milliseconds for its run's `(count, delta)` pair. -/
theorem parseFrameDurations_wellformed_spec :
    (∀ buf : List Nat, findBox buf 0 buf.length moovCC = .ok none →
      parseFrameDurations buf = .ok none) ∧
    (∀ (buf : List Nat) (moov : FoundBox),
      findBox buf 0 buf.length moovCC = .ok (some moov) →
      moov.bstart < moov.bend →
      findBox buf moov.bstart moov.bend trakCC = .ok none →
      parseFrameDurations buf = .ok none) ∧
    (∀ (buf : List Nat) (mdia : FoundBox),
      findBox buf mdia.bstart mdia.bend mdhdCC = .ok none →
      parseStts buf mdia = .ok none) ∧
    (∀ (buf : List Nat) (mdia mdhd : FoundBox),
      findBox buf mdia.bstart mdia.bend mdhdCC = .ok (some mdhd) →
      (if byteAt buf mdhd.bstart = 1 then getU32 buf (mdhd.bstart + 20)
       else getU32 buf (mdhd.bstart + 12)) = .ok 0 →
      parseStts buf mdia = .ok none) ∧
    (∀ (buf : List Nat) (moov trak mdia hdlr mdhd minf stbl stts : FoundBox)
      (ts entryCount : Nat) (entries : List (Nat × Nat)),
      findBox buf 0 buf.length moovCC = .ok (some moov) →
      moov.bstart < moov.bend →
      findBox buf moov.bstart moov.bend trakCC = .ok (some trak) →
      findBox buf trak.bstart trak.bend mdiaCC = .ok (some mdia) →
      findBox buf mdia.bstart mdia.bend hdlrCC = .ok (some hdlr) →
      read4 buf (hdlr.bstart + 8) = videCC →
      findBox buf mdia.bstart mdia.bend mdhdCC = .ok (some mdhd) →
      (if byteAt buf mdhd.bstart = 1 then getU32 buf (mdhd.bstart + 20)
       else getU32 buf (mdhd.bstart + 12)) = .ok ts →
      ts ≠ 0 →
      findBox buf mdia.bstart mdia.bend minfCC = .ok (some minf) →
      findBox buf minf.bstart minf.bend stblCC = .ok (some stbl) →
      findBox buf stbl.bstart stbl.bend sttsCC = .ok (some stts) →
      getU32 buf (stts.bstart + 4) = .ok entryCount →
      sttsEntriesLoop buf stts.bend entryCount (stts.bstart + 8) = .ok entries →
      0 < (entries.map Prod.fst).sum →
      parseFrameDurations buf = .ok (some (sttsExpand entries ts)) ∧
      (sttsExpand entries ts).length = (entries.map Prod.fst).sum ∧
      ∀ q ∈ sttsExpand entries ts, ∃ p ∈ entries,
        q = ((p.2 : ℚ) / (ts : ℚ)) * 1000) := by
  refine ⟨?_, ?_, ?_, ?_, ?_⟩
  · intro buf hmoov
    simp only [parseFrameDurations, hmoov]
  · intro buf moov hmoov hlt htrak
    simp only [parseFrameDurations, hmoov, trakLoop, if_pos hlt, htrak]
  · intro buf mdia hmdhd
    simp only [parseStts, hmdhd]
  · intro buf mdia mdhd hmdhd hts
    simp [parseStts, hmdhd, hts]
  · intro buf moov trak mdia hdlr mdhd minf stbl stts ts entryCount entries
      hmoov hlt htrak hmdia hhdlr hvide hmdhd hts hts0 hminf hstbl hstts
      hcount hentries hpos
    refine ⟨?_, sttsExpand_length entries ts, ?_⟩
    · have hps := parseStts_chain_success buf mdia mdhd minf stbl stts ts
        entryCount entries hmdhd hts hts0 hminf hstbl hstts hcount hentries hpos
      simp only [parseFrameDurations, hmoov, trakLoop, if_pos hlt, htrak, hmdia,
        hhdlr, if_pos hvide, hps]
    · intro q hq
      simp only [sttsExpand, List.mem_flatMap] at hq
      obtain ⟨p, hp, hq⟩ := hq
      exact ⟨p, hp, List.eq_of_mem_replicate hq⟩

/-- C5 (witness): the positive conjunct applied to the concrete buffer
`c5buf` (timescale 1000, one run of 2 samples with delta 500): the parsed
duration list is the expansion of `[(2, 500)]`, of length 2, every entry
`500/1000*1000` ms. -/
theorem parseFrameDurations_wellformed_spec_witness :
    parseFrameDurations c5buf = .ok (some (sttsExpand [(2, 500)] 1000)) ∧
    (sttsExpand [(2, 500)] 1000).length = ([(2, 500)].map Prod.fst).sum ∧
    ∀ q ∈ sttsExpand [(2, 500)] 1000, ∃ p ∈ [((2 : Nat), (500 : Nat))],
      q = ((p.2 : ℚ) / ((1000 : Nat) : ℚ)) * 1000 :=
  parseFrameDurations_wellformed_spec.2.2.2.2 c5buf
    ⟨8, 116, 108⟩ ⟨16, 116, 100⟩ ⟨24, 116, 92⟩ ⟨60, 76, 16⟩ ⟨32, 52, 20⟩
    ⟨84, 116, 32⟩ ⟨92, 116, 24⟩ ⟨100, 116, 16⟩ 1000 1 [(2, 500)]
    (by decide) (by decide) (by decide) (by decide) (by decide) (by decide)
    (by decide) (by decide) (by decide) (by decide) (by decide) (by decide)
    (by decide) (by decide) (by decide)
